import Mathlib

/-!
Verification of the PoseSandbox pose/transform resolution engine.

The definitions below are shallow embeddings of the JavaScript source:
joint naming and bilateral counterpart lookup, the quaternion mirror used
by the symmetry engine, the gizmo target policy, the rest-pose
snapshot/restore, the selection resolver, the prototype pose codec and the
snap-degree setter.  JavaScript numbers are modelled as exact rationals
where the code only copies them and as real numbers where the code does
arithmetic (matrix products, square roots).
-/

namespace PoseSandbox

/-! ### Bilateral counterpart naming (app entry, `counterpartName`)

`counterpartName(name)` returns `"r_" + name.slice(2)` when `name` starts
with `"l_"`, `"l_" + name.slice(2)` when it starts with `"r_"`, and `null`
otherwise.  `startsWith "l_"` is rendered as `data.take 2 = ['l', '_']`
and `slice(2)` as `data.drop 2`. -/

def counterpartName (s : String) : Option String :=
  if s.data.take 2 = ['l', '_'] then some (String.mk ('r' :: '_' :: s.data.drop 2))
  else if s.data.take 2 = ['r', '_'] then some (String.mk ('l' :: '_' :: s.data.drop 2))
  else none

/-- A joint name carries a left/right prefix when it starts with `"l_"` or `"r_"`. -/
def hasLRStart (s : String) : Prop :=
  s.data.take 2 = ['l', '_'] ∨ s.data.take 2 = ['r', '_']

instance (s : String) : Decidable (hasLRStart s) := by
  unfold hasLRStart; exact inferInstance

/-! ### Snap degrees (core/state.js `setSnapDeg`)

`setSnapDeg(state, deg)` computes `n = Number(deg)` and stores `n` when it
is a finite number, keeping the old value otherwise; it returns the
resulting `state.snapDeg`.  The IEEE value `Number(deg)` is modelled by
`JsNumber`: a finite rational, `NaN` (also produced by `undefined` and
non-numeric strings), or an infinity. -/

structure SnapState where
  snapDeg : ℚ
deriving DecidableEq

inductive JsNumber where
  | nan
  | posInf
  | negInf
  | num (q : ℚ)
deriving DecidableEq

/-- `Number.isFinite` on the converted value. -/
def isFiniteNumber : JsNumber → Bool
  | .num _ => true
  | _ => false

/-- `setSnapDeg`: writes the converted number when finite, else keeps the
old state; returns the resulting `snapDeg`. -/
def setSnapDeg (state : SnapState) (n : JsNumber) : SnapState × ℚ :=
  let v : ℚ :=
    match n with
    | .num q => q
    | _ => state.snapDeg
  let state' : SnapState := ⟨v⟩
  (state', state'.snapDeg)

/-! ### Scene-graph objects and the gizmo target policy
(app entry, `findFirstPickableMesh` and `getGizmoTargetForSelection`)

A THREE.Object3D node is modelled by `Obj`: its name, whether it is a
mesh, and the `userData` capability flags the app reads (`pickable`,
`isJoint`, `isProp`, `isImportedModel`, `isImportedRoot`, `importRoot`).
The cyclic `userData.importRoot` back-reference is modelled as an opaque
numeric identifier of the imported-model root. -/

inductive Obj where
  | mk (name : String) (isMesh : Bool) (pickable : Bool) (isJoint : Bool)
      (isProp : Bool) (isImportedModel : Bool) (isImportedRoot : Bool)
      (importRoot : Option Nat) (children : List Obj)

def Obj.name : Obj → String
  | .mk n _ _ _ _ _ _ _ _ => n

def Obj.isMesh : Obj → Bool
  | .mk _ im _ _ _ _ _ _ _ => im

def Obj.pickable : Obj → Bool
  | .mk _ _ pk _ _ _ _ _ _ => pk

def Obj.isJoint : Obj → Bool
  | .mk _ _ _ ij _ _ _ _ _ => ij

def Obj.isProp : Obj → Bool
  | .mk _ _ _ _ ip _ _ _ _ => ip

def Obj.isImportedModel : Obj → Bool
  | .mk _ _ _ _ _ iim _ _ _ => iim

def Obj.isImportedRoot : Obj → Bool
  | .mk _ _ _ _ _ _ iir _ _ => iir

def Obj.importRoot : Obj → Option Nat
  | .mk _ _ _ _ _ _ _ ir _ => ir

def Obj.children : Obj → List Obj
  | .mk _ _ _ _ _ _ _ _ cs => cs

/- `findFirstPickableMesh(obj)`: `obj.traverse` visits the node itself and
then each child subtree depth-first in order; the first visited node with
`isMesh` and `userData.pickable` is kept. -/
mutual
def findFirstPickableMesh : Obj → Option Obj
  | .mk n im pk ij ip iim iir ir cs =>
    if im && pk then some (.mk n im pk ij ip iim iir ir cs)
    else findFirstPickableMeshList cs

def findFirstPickableMeshList : List Obj → Option Obj
  | [] => none
  | c :: cs =>
    match findFirstPickableMesh c with
    | some m => some m
    | none => findFirstPickableMeshList cs
end

/-- The four edit modes of the app. -/
inductive Mode where
  | rotate
  | move
  | orbit
  | scale
deriving DecidableEq

/-- What the gizmo is attached to: a live node, or the stored
imported-model root reference (`sel.userData.importRoot`). -/
inductive GTarget where
  | node (o : Obj)
  | importedRoot (id : Nat)

/-- `getGizmoTargetForSelection(sel)`: `null` for no selection or orbit
mode; in scale mode a prop is its own target, a joint's target is its
first pickable mesh (falling back to the joint itself), and an imported
model's target is the stored root; otherwise (rotate/move, or a scale
fall-through) an imported model's target is the stored root and anything
else is its own target. -/
def getGizmoTargetForSelection (mode : Mode) (sel : Option Obj) : Option GTarget :=
  match sel with
  | none => none
  | some s =>
    if mode = .orbit then none
    else
      let scaleResult : Option GTarget :=
        if mode = .scale then
          if s.isProp then some (.node s)
          else if s.isJoint then some (.node ((findFirstPickableMesh s).getD s))
          else if s.isImportedModel then
            match s.importRoot with
            | some r => some (.importedRoot r)
            | none => none
          else none
        else none
      match scaleResult with
      | some t => some t
      | none =>
        match (if s.isImportedModel then s.importRoot else none) with
        | some r => some (.importedRoot r)
        | none => some (.node s)

/-! ### The built rig (character/character.js `Character.build`)

Joints are `namedGroup`s (`userData.isJoint`, not meshes, not pickable);
visible parts are `addBox` meshes (`userData.pickable`).  Children appear
in the order the source adds them.  `rigJoints` lists the joints in the
order they are pushed onto `this.joints`. -/

def jointGroup (n : String) (cs : List Obj) : Obj :=
  .mk n false false true false false false none cs

def boxMesh (n : String) : Obj :=
  .mk n true true false false false false none []

def torsoMesh : Obj := boxMesh "torso_mesh"
def headMesh : Obj := boxMesh "head_mesh"
def lUpperarmMesh : Obj := boxMesh "l_upperarm_mesh"
def rUpperarmMesh : Obj := boxMesh "r_upperarm_mesh"
def lForearmMesh : Obj := boxMesh "l_forearm_mesh"
def rForearmMesh : Obj := boxMesh "r_forearm_mesh"
def lHandMesh : Obj := boxMesh "l_hand_mesh"
def rHandMesh : Obj := boxMesh "r_hand_mesh"
def lThighMesh : Obj := boxMesh "l_thigh_mesh"
def rThighMesh : Obj := boxMesh "r_thigh_mesh"
def lShinMesh : Obj := boxMesh "l_shin_mesh"
def rShinMesh : Obj := boxMesh "r_shin_mesh"
def lFootMesh : Obj := boxMesh "l_foot_mesh"
def rFootMesh : Obj := boxMesh "r_foot_mesh"

def lWristJ : Obj := jointGroup "l_wrist" [lHandMesh]
def rWristJ : Obj := jointGroup "r_wrist" [rHandMesh]
def lElbowJ : Obj := jointGroup "l_elbow" [lForearmMesh, lWristJ]
def rElbowJ : Obj := jointGroup "r_elbow" [rForearmMesh, rWristJ]
def lShoulderJ : Obj := jointGroup "l_shoulder" [lUpperarmMesh, lElbowJ]
def rShoulderJ : Obj := jointGroup "r_shoulder" [rUpperarmMesh, rElbowJ]
def neckJ : Obj := jointGroup "neck" [headMesh]
def chestJ : Obj := jointGroup "chest" [neckJ, lShoulderJ, rShoulderJ]
def lAnkleJ : Obj := jointGroup "l_ankle" [lFootMesh]
def rAnkleJ : Obj := jointGroup "r_ankle" [rFootMesh]
def lKneeJ : Obj := jointGroup "l_knee" [lShinMesh, lAnkleJ]
def rKneeJ : Obj := jointGroup "r_knee" [rShinMesh, rAnkleJ]
def lHipJ : Obj := jointGroup "l_hip" [lThighMesh, lKneeJ]
def rHipJ : Obj := jointGroup "r_hip" [rThighMesh, rKneeJ]
def hipsJ : Obj := jointGroup "hips" [torsoMesh, chestJ, lHipJ, rHipJ]
def charRootJ : Obj := jointGroup "char_root" [hipsJ]

/-- `world.joints`, in the order `Character.build` pushes them. -/
def rigJoints : List Obj :=
  [charRootJ, hipsJ, chestJ, neckJ, lShoulderJ, rShoulderJ, lElbowJ, rElbowJ,
   lWristJ, rWristJ, lHipJ, rHipJ, lKneeJ, rKneeJ, lAnkleJ, rAnkleJ]

/-! ### Rotation mirroring (app entry, `mirrorQuaternionAcrossX`)

`mirrorQuaternionAcrossX(srcQuat, outQuat)` builds the rotation matrix `R`
of the source quaternion, forms `M·R·M` with `M = makeScale(-1, 1, 1)`,
extracts a quaternion from the product with THREE's
`setFromRotationMatrix`, and normalizes it.  Floating-point scalars are
idealized as real numbers; only the rotation 3×3 block of THREE's
`Matrix4` is carried (the translation column and bottom row of every
matrix involved are trivial). -/

@[ext]
structure Quat where
  x : ℝ
  y : ℝ
  z : ℝ
  w : ℝ

@[ext]
structure Mat3 where
  m00 : ℝ
  m01 : ℝ
  m02 : ℝ
  m10 : ℝ
  m11 : ℝ
  m12 : ℝ
  m20 : ℝ
  m21 : ℝ
  m22 : ℝ

/-- Row-times-column matrix product, as THREE's `Matrix4.multiply`. -/
def Mat3.mul (a b : Mat3) : Mat3 :=
  ⟨a.m00 * b.m00 + a.m01 * b.m10 + a.m02 * b.m20,
   a.m00 * b.m01 + a.m01 * b.m11 + a.m02 * b.m21,
   a.m00 * b.m02 + a.m01 * b.m12 + a.m02 * b.m22,
   a.m10 * b.m00 + a.m11 * b.m10 + a.m12 * b.m20,
   a.m10 * b.m01 + a.m11 * b.m11 + a.m12 * b.m21,
   a.m10 * b.m02 + a.m11 * b.m12 + a.m12 * b.m22,
   a.m20 * b.m00 + a.m21 * b.m10 + a.m22 * b.m20,
   a.m20 * b.m01 + a.m21 * b.m11 + a.m22 * b.m21,
   a.m20 * b.m02 + a.m21 * b.m12 + a.m22 * b.m22⟩

/-- `new THREE.Matrix4().makeScale(-1, 1, 1)`: the sagittal reflection. -/
def mirrorM : Mat3 := ⟨-1, 0, 0, 0, 1, 0, 0, 0, 1⟩

/-- `Matrix4.makeRotationFromQuaternion` (`compose` with zero translation
and unit scale), written with the same intermediate products as THREE. -/
def makeRotationFromQuaternion (q : Quat) : Mat3 :=
  let x2 := q.x + q.x
  let y2 := q.y + q.y
  let z2 := q.z + q.z
  let xx := q.x * x2
  let xy := q.x * y2
  let xz := q.x * z2
  let yy := q.y * y2
  let yz := q.y * z2
  let zz := q.z * z2
  let wx := q.w * x2
  let wy := q.w * y2
  let wz := q.w * z2
  ⟨1 - (yy + zz), xy - wz, xz + wy,
   xy + wz, 1 - (xx + zz), yz - wx,
   xz - wy, yz + wx, 1 - (xx + yy)⟩

/-- `Quaternion.setFromRotationMatrix`, Shepperd's method exactly as in
THREE (trace branch, then the three diagonal-pivot branches). -/
noncomputable def setFromRotationMatrix (m : Mat3) : Quat :=
  let trace := m.m00 + m.m11 + m.m22
  if 0 < trace then
    let s := 0.5 / Real.sqrt (trace + 1)
    ⟨(m.m21 - m.m12) * s, (m.m02 - m.m20) * s, (m.m10 - m.m01) * s, 0.25 / s⟩
  else if m.m00 > m.m11 ∧ m.m00 > m.m22 then
    let s := 2 * Real.sqrt (1 + m.m00 - m.m11 - m.m22)
    ⟨0.25 * s, (m.m01 + m.m10) / s, (m.m02 + m.m20) / s, (m.m21 - m.m12) / s⟩
  else if m.m11 > m.m22 then
    let s := 2 * Real.sqrt (1 + m.m11 - m.m00 - m.m22)
    ⟨(m.m01 + m.m10) / s, 0.25 * s, (m.m12 + m.m21) / s, (m.m02 - m.m20) / s⟩
  else
    let s := 2 * Real.sqrt (1 + m.m22 - m.m00 - m.m11)
    ⟨(m.m02 + m.m20) / s, (m.m12 + m.m21) / s, 0.25 * s, (m.m10 - m.m01) / s⟩

/-- Squared euclidean length of a quaternion. -/
def quatNorm2 (q : Quat) : ℝ :=
  q.x ^ 2 + q.y ^ 2 + q.z ^ 2 + q.w ^ 2

/-- `Quaternion.normalize`: divide by the length, or reset to the identity
quaternion when the length is zero. -/
noncomputable def normalizeQuat (q : Quat) : Quat :=
  let l := Real.sqrt (quatNorm2 q)
  if l = 0 then ⟨0, 0, 0, 1⟩ else ⟨q.x / l, q.y / l, q.z / l, q.w / l⟩

/-- `mirrorQuaternionAcrossX`: extract-and-normalize of `M·R·M`. -/
noncomputable def mirrorQuaternionAcrossX (q : Quat) : Quat :=
  normalizeQuat (setFromRotationMatrix
    ((mirrorM.mul (makeRotationFromQuaternion q)).mul mirrorM))

/-- Componentwise negation; `q` and `negQuat q` encode the same rotation. -/
def negQuat (q : Quat) : Quat := ⟨-q.x, -q.y, -q.z, -q.w⟩

/-- Conjugation of the rotation by the sagittal reflection at quaternion
level: `M·R(q)·M = R(conjQuatX q)`. -/
def conjQuatX (q : Quat) : Quat := ⟨q.x, -q.y, -q.z, q.w⟩

/-! ### The running world of joints and part scales

`FJoint` carries the fields of a joint node that the symmetry engine and
the rest-pose code read and write: its stable name, the `userData.isJoint`
and `userData.isProp` flags, its local position, quaternion and scale, and
the identity of its first pickable mesh — the precomputed value of
`findFirstPickableMesh(joint)` on the live scene graph, `none` when the
subtree holds no pickable mesh.  Distinct joints may share a first mesh
(e.g. `chest` and `neck` both resolve to `head_mesh`), which the
mesh-scale store `meshScales` represents faithfully.  Vectors are triples
of reals. -/

structure V3 where
  x : ℝ
  y : ℝ
  z : ℝ

@[ext]
structure FJoint where
  name : String
  isJoint : Bool
  isProp : Bool
  pos : V3
  quat : Quat
  scale : V3
  firstMesh : Option Nat

structure FWorld where
  joints : List FJoint
  meshScales : Nat → V3

/-- `getJointByName(name)`: first joint in `world.joints` with that name. -/
def getJointByName (w : FWorld) (n : String) : Option FJoint :=
  w.joints.find? (fun j => j.name = n)

/-- Replace the quaternion of the first joint carrying the given name,
modelling the in-place `other.quaternion.copy(_Q)` on the object found by
`getJointByName`. -/
def updateFirstQuat : List FJoint → String → Quat → List FJoint
  | [], _, _ => []
  | j :: js, n, q =>
    if j.name = n then { j with quat := q } :: js
    else j :: updateFirstQuat js n q

/-- The gizmo target of a joint selection, as `getGizmoTargetForSelection`
computes it on the flat view: in scale mode a prop-flagged selection or a
mesh-less joint is its own target, a joint with a first pickable mesh has
that mesh as target; other modes target the selection itself. -/
inductive FTarget where
  | meshT (id : Nat)
  | selfT (j : FJoint)

def fGizmoTarget (mode : Mode) (s : FJoint) : Option FTarget :=
  if mode = .orbit then none
  else if mode = .scale then
    if s.isProp then some (.selfT s)
    else if s.isJoint then
      match s.firstMesh with
      | some m => some (.meshT m)
      | none => some (.selfT s)
    else some (.selfT s)
  else some (.selfT s)

/-- `mirrorRotationToCounterpartIfPossible`: requires a joint selection,
derives the counterpart name, finds the counterpart joint and overwrites
its quaternion with the mirrored rotation of the selection. -/
noncomputable def mirrorRotationToCounterpartIfPossible
    (sel : Option FJoint) (w : FWorld) : FWorld :=
  match sel with
  | none => w
  | some s =>
    if s.isJoint = false then w
    else
      match counterpartName s.name with
      | none => w
      | some cn =>
        match getJointByName w cn with
        | none => w
        | some _ =>
          { w with joints := updateFirstQuat w.joints cn (mirrorQuaternionAcrossX s.quat) }

/-- `mirrorScaleToCounterpartIfPossible`: requires a joint selection,
derives the counterpart, reads the counterpart's first pickable mesh and
the selection's own gizmo target, and copies the target's scale onto the
counterpart's mesh when both are meshes. -/
def mirrorScaleToCounterpartIfPossible (mode : Mode) (sel : Option FJoint)
    (w : FWorld) : FWorld :=
  match sel with
  | none => w
  | some s =>
    if s.isJoint = false then w
    else
      match counterpartName s.name with
      | none => w
      | some cn =>
        match getJointByName w cn with
        | none => w
        | some other =>
          match fGizmoTarget mode s, other.firstMesh with
          | some (.meshT ms), some mo =>
            { w with meshScales := fun k => if k = mo then w.meshScales ms else w.meshScales k }
          | _, _ => w

/-- The gizmo `objectChange` listener: returns the world unchanged unless
symmetry is enabled and the selection is a joint, then mirrors rotation in
rotate mode and part scale in scale mode. -/
noncomputable def onGizmoObjectChange (symEnabled : Bool) (mode : Mode)
    (sel : Option FJoint) (w : FWorld) : FWorld :=
  if symEnabled = false then w
  else
    match sel with
    | none => w
    | some s =>
      if s.isJoint = false then w
      else if mode = .rotate then mirrorRotationToCounterpartIfPossible (some s) w
      else if mode = .scale then mirrorScaleToCounterpartIfPossible mode (some s) w
      else w

/-! ### Rest pose snapshot and restore (app entry, `snapshotRestPose` and
`resetAllJointTransforms`)

`snapshotRestPose` stores, per joint name, the position, quaternion, scale
and — when the joint has a first pickable mesh — that mesh's scale.  The
`REST` `Map` keyed by name keeps the last entry per key, so lookup finds
the last snapshot record with the name. -/

structure RestRec where
  pos : V3
  quat : Quat
  scale : V3
  meshScale : Option V3

def snapshotRestPose (w : FWorld) : List (String × RestRec) :=
  w.joints.map (fun j =>
    (j.name, ⟨j.pos, j.quat, j.scale, j.firstMesh.map w.meshScales⟩))

/-- `REST.get(name)` with `Map.set` semantics: the last record wins. -/
def restLookup (rest : List (String × RestRec)) (n : String) : Option RestRec :=
  (rest.reverse.find? (fun e => e.1 = n)).map (fun e => e.2)

/-- A pose edit mutates one joint's position, rotation or scale, or one
part's scale; it can neither rename joints nor change which mesh a joint
resolves to. -/
inductive PoseEdit where
  | setPos (i : Nat) (v : V3)
  | setQuat (i : Nat) (q : Quat)
  | setScale (i : Nat) (v : V3)
  | setMeshScale (m : Nat) (v : V3)

def applyEdit (w : FWorld) : PoseEdit → FWorld
  | .setPos i v =>
    { w with joints := w.joints.mapIdx (fun k j => if k = i then { j with pos := v } else j) }
  | .setQuat i q =>
    { w with joints := w.joints.mapIdx (fun k j => if k = i then { j with quat := q } else j) }
  | .setScale i v =>
    { w with joints := w.joints.mapIdx (fun k j => if k = i then { j with scale := v } else j) }
  | .setMeshScale m v =>
    { w with meshScales := fun k => if k = m then v else w.meshScales k }

def applyEdits (es : List PoseEdit) (w : FWorld) : FWorld :=
  es.foldl applyEdit w

/-- The per-joint transform write-back of `resetAllJointTransforms`:
joints without a snapshot record are skipped. -/
def restoreJoint (rest : List (String × RestRec)) (j : FJoint) : FJoint :=
  match restLookup rest j.name with
  | none => j
  | some r => { j with pos := r.pos, quat := r.quat, scale := r.scale }

/-- The per-joint mesh-scale write-back of `resetAllJointTransforms`:
fires only when the joint has a first pickable mesh and the record stored
a mesh scale. -/
def restoreMeshStep (rest : List (String × RestRec)) (st : Nat → V3) (j : FJoint) :
    Nat → V3 :=
  match restLookup rest j.name with
  | none => st
  | some r =>
    match j.firstMesh, r.meshScale with
    | some m, some v => fun k => if k = m then v else st k
    | _, _ => st

/-- `resetAllJointTransforms`: for every current joint with a snapshot
record, write back position, quaternion and scale, and when the joint has
a first pickable mesh and the record stored a mesh scale, write that back
too (in joint order). -/
def resetAllJointTransforms (rest : List (String × RestRec)) (w : FWorld) : FWorld :=
  { joints := w.joints.map (restoreJoint rest),
    meshScales := w.joints.foldl (restoreMeshStep rest) w.meshScales }

/-- The fields of a joint that pose edits can never touch: name, capability
flags and the identity of its first pickable mesh. -/
def skelOf (j : FJoint) : String × Bool × Bool × Option Nat :=
  (j.name, j.isJoint, j.isProp, j.firstMesh)

/-! ### Selection resolution (controls/selection.js `_resolveSelectionFromHit`)

A hit object and its chain of ancestors (innermost parent first, as
`o = o.parent` walks it) are modelled by records of the `userData` fields
the resolver reads.  The resolver's result is either a live node or the
stored imported-root reference. -/

structure HitObj where
  name : String
  isMesh : Bool
  isJoint : Bool
  isProp : Bool
  isImportedModel : Bool
  isImportedRoot : Bool
  importRoot : Option Nat
deriving DecidableEq

inductive HitRes where
  | refRoot (id : Nat)
  | node (o : HitObj)
deriving DecidableEq

/-- The `while (o)` loop of `_resolveSelectionFromHit`: per object, in
order — `importRoot` back-reference, parent joint, imported root, the
(unreachable) prop-with-import-ref conjunction, prop — else step to the
parent; a fully exhausted chain falls back to the hit object. -/
def resolveLoop (hit : HitObj) : HitObj → List HitObj → HitRes
  | o, p :: ps =>
    match o.importRoot with
    | some r => .refRoot r
    | none =>
      if p.isJoint then .node p
      else if o.isImportedRoot then .node o
      else if o.isProp && o.isImportedModel && o.importRoot.isSome then
        .refRoot (o.importRoot.getD 0)
      else if o.isProp then .node o
      else resolveLoop hit p ps
  | o, [] =>
    match o.importRoot with
    | some r => .refRoot r
    | none =>
      if o.isImportedRoot then .node o
      else if o.isProp && o.isImportedModel && o.importRoot.isSome then
        .refRoot (o.importRoot.getD 0)
      else if o.isProp then .node o
      else .node hit

/-- `_resolveSelectionFromHit(hitObj)`: the up-front `importRoot`
promotion, then the ancestor walk. -/
def resolveSelectionFromHit (hit : HitObj) (ancestors : List HitObj) : HitRes :=
  match hit.importRoot with
  | some r => .refRoot r
  | none => resolveLoop hit hit ancestors

/-- The resolution algorithm exactly as the specification words it: walk
upward from the hit part; per ancestor, select its imported-model
back-reference if present, else its parent when that parent is a joint,
else the ancestor itself when it is a registered prop; an exhausted walk
selects the hit part verbatim.  (This second definition follows the
spec's words and is compared against `resolveSelectionFromHit`, the
embedding of the code.) -/
def specResolveLoop (hit : HitObj) : HitObj → List HitObj → HitRes
  | o, p :: ps =>
    match o.importRoot with
    | some r => .refRoot r
    | none =>
      if p.isJoint then .node p
      else if o.isProp then .node o
      else specResolveLoop hit p ps
  | o, [] =>
    match o.importRoot with
    | some r => .refRoot r
    | none =>
      if o.isProp then .node o
      else .node hit

def specResolveSelection (hit : HitObj) (ancestors : List HitObj) : HitRes :=
  specResolveLoop hit hit ancestors

/-! ### The prototype pose codec (the recursive `serialize`/`apply` pair)

`serialize(group)` records the group's Euler rotation array and recurses
into the children; `apply(group, data)` writes the rotation back with
`fromArray` and recurses pairwise into `group.children` with
`data.children[i]`.  An index past the end of `data.children` makes the
original crash on `undefined.rotation`, modelled as `none`; surplus data
entries are ignored.  Euler angles pass through `toArray`/`fromArray`
unchanged, so the rotation is carried directly. -/

structure EulerRot where
  ex : ℚ
  ey : ℚ
  ez : ℚ
  order : String
deriving DecidableEq

inductive GTree where
  | node (rotation : EulerRot) (children : List GTree)

inductive PoseData where
  | mk (rotation : EulerRot) (children : List PoseData)

mutual
def serializeGroup : GTree → PoseData
  | .node r cs => .mk r (serializeGroupList cs)

def serializeGroupList : List GTree → List PoseData
  | [] => []
  | c :: cs => serializeGroup c :: serializeGroupList cs
end

mutual
def applyGroup : GTree → PoseData → Option GTree
  | .node _ cs, .mk r ds =>
    match applyChildren cs ds with
    | some cs' => some (.node r cs')
    | none => none

def applyChildren : List GTree → List PoseData → Option (List GTree)
  | [], _ => some []
  | _ :: _, [] => none
  | c :: cs, d :: ds =>
    match applyGroup c d, applyChildren cs ds with
    | some c', some cs' => some (c' :: cs')
    | _, _ => none
end

/-! ### Concrete fixtures for the shoulder scenario and the resolver -/

/-- `l_shoulder` at identity rotation whose part is mesh `0`. -/
def lShoulderF : FJoint :=
  ⟨"l_shoulder", true, false, ⟨0, 0, 0⟩, ⟨0, 0, 0, 1⟩, ⟨1, 1, 1⟩, some 0⟩

/-- `r_shoulder` at identity rotation whose part is mesh `1`. -/
def rShoulderF : FJoint :=
  ⟨"r_shoulder", true, false, ⟨0, 0, 0⟩, ⟨0, 0, 0, 1⟩, ⟨1, 1, 1⟩, some 1⟩

/-- Both shoulders with unit part scales. -/
def shoulderWorld : FWorld :=
  ⟨[lShoulderF, rShoulderF], fun _ => ⟨1, 1, 1⟩⟩

/-- Both shoulders after the left part was scaled to `(2, 3, 4)`. -/
def scaleWorld : FWorld :=
  ⟨[lShoulderF, rShoulderF], fun k => if k = 0 then ⟨2, 3, 4⟩ else ⟨1, 1, 1⟩⟩

/-- A pickable rig mesh as the raycaster reports it. -/
def hitMeshF : HitObj :=
  ⟨"l_upperarm_mesh", true, false, false, false, false, none⟩

/-- Its parent joint group on the ancestor chain. -/
def shoulderHitF : HitObj :=
  ⟨"l_shoulder", false, true, false, false, false, none⟩

/-! ### Quaternion algebra lemmas -/

/-- The rotation matrix of a quaternion, with flattened entries. -/
lemma mrq_eq (x y z w : ℝ) :
    makeRotationFromQuaternion ⟨x, y, z, w⟩ =
      ⟨1 - (2*y^2 + 2*z^2), 2*x*y - 2*w*z, 2*x*z + 2*w*y,
       2*x*y + 2*w*z, 1 - (2*x^2 + 2*z^2), 2*y*z - 2*w*x,
       2*x*z - 2*w*y, 2*y*z + 2*w*x, 1 - (2*x^2 + 2*y^2)⟩ := by
  simp only [makeRotationFromQuaternion]
  refine Mat3.ext ?_ ?_ ?_ ?_ ?_ ?_ ?_ ?_ ?_ <;> ring

/-- Conjugating a rotation matrix by the sagittal reflection corresponds
to negating the `y` and `z` quaternion components. -/
lemma mirror_conj (q : Quat) :
    (mirrorM.mul (makeRotationFromQuaternion q)).mul mirrorM =
      makeRotationFromQuaternion (conjQuatX q) := by
  obtain ⟨x, y, z, w⟩ := q
  simp only [conjQuatX, mrq_eq, mirrorM, Mat3.mul]
  refine Mat3.ext ?_ ?_ ?_ ?_ ?_ ?_ ?_ ?_ ?_ <;> ring

/-- Opposite quaternions encode the same rotation matrix. -/
lemma mrq_negQuat (q : Quat) :
    makeRotationFromQuaternion (negQuat q) = makeRotationFromQuaternion q := by
  obtain ⟨x, y, z, w⟩ := q
  simp only [negQuat, mrq_eq]
  refine Mat3.ext ?_ ?_ ?_ ?_ ?_ ?_ ?_ ?_ ?_ <;> ring

lemma quatNorm2_conjQuatX (q : Quat) : quatNorm2 (conjQuatX q) = quatNorm2 q := by
  obtain ⟨x, y, z, w⟩ := q
  simp only [conjQuatX, quatNorm2]
  ring

lemma quatNorm2_negQuat (q : Quat) : quatNorm2 (negQuat q) = quatNorm2 q := by
  obtain ⟨x, y, z, w⟩ := q
  simp only [negQuat, quatNorm2]
  ring

/-- Normalizing a unit quaternion is the identity. -/
lemma normalizeQuat_unit (q : Quat) (h : quatNorm2 q = 1) : normalizeQuat q = q := by
  obtain ⟨x, y, z, w⟩ := q
  simp only [normalizeQuat, h, Real.sqrt_one]
  norm_num

/-- THREE's matrix-to-quaternion extraction at the identity matrix. -/
lemma extract_identity :
    setFromRotationMatrix ⟨1, 0, 0, 0, 1, 0, 0, 0, 1⟩ = ⟨0, 0, 0, 1⟩ := by
  have h4 : Real.sqrt ((1:ℝ) + 1 + 1 + 1) = 2 := by
    rw [show ((1:ℝ) + 1 + 1 + 1) = 2 ^ 2 by norm_num]
    rw [Real.sqrt_sq (by norm_num)]
  simp only [setFromRotationMatrix]
  rw [if_pos (by norm_num : (0:ℝ) < 1 + 1 + 1)]
  rw [h4]
  refine Quat.ext ?_ ?_ ?_ ?_ <;> norm_num

/-- Mirroring a pure-`w` quaternion yields the canonical identity
quaternion, whatever the sign and magnitude of `w`. -/
lemma mirrorQ_pure_w (w : ℝ) :
    mirrorQuaternionAcrossX ⟨0, 0, 0, w⟩ = ⟨0, 0, 0, 1⟩ := by
  unfold mirrorQuaternionAcrossX
  have h1 : (mirrorM.mul (makeRotationFromQuaternion ⟨0, 0, 0, w⟩)).mul mirrorM =
      ⟨1, 0, 0, 0, 1, 0, 0, 0, 1⟩ := by
    rw [mirror_conj]
    simp only [conjQuatX, mrq_eq]
    refine Mat3.ext ?_ ?_ ?_ ?_ ?_ ?_ ?_ ?_ ?_ <;> ring
  rw [h1, extract_identity]
  have : quatNorm2 ⟨0, 0, 0, 1⟩ = 1 := by simp [quatNorm2]
  rw [normalizeQuat_unit _ this]

/-- Extracting a quaternion from the rotation matrix of a unit quaternion
recovers the quaternion up to global sign, whichever branch of Shepperd's
method fires. -/
lemma extract_mrq (x y z w : ℝ) (h : x ^ 2 + y ^ 2 + z ^ 2 + w ^ 2 = 1) :
    setFromRotationMatrix (makeRotationFromQuaternion ⟨x, y, z, w⟩) = ⟨x, y, z, w⟩ ∨
    setFromRotationMatrix (makeRotationFromQuaternion ⟨x, y, z, w⟩) =
      negQuat ⟨x, y, z, w⟩ := by
  rw [mrq_eq]
  simp only [setFromRotationMatrix, negQuat]
  split_ifs with hA hB hC
  · -- trace branch: the pivot is w
    have key : 1 - (2*y^2 + 2*z^2) + (1 - (2*x^2 + 2*z^2)) + (1 - (2*x^2 + 2*y^2)) + 1 =
        4 * w ^ 2 := by linear_combination (-4 : ℝ) * h
    rcases le_or_lt 0 w with hw0 | hw0
    · have hww : 0 < w := by nlinarith
      have hwne : w ≠ 0 := ne_of_gt hww
      have hs : Real.sqrt
          (1 - (2*y^2 + 2*z^2) + (1 - (2*x^2 + 2*z^2)) + (1 - (2*x^2 + 2*y^2)) + 1) =
          2 * w := by
        rw [key, show (4:ℝ) * w ^ 2 = (2*w) ^ 2 by ring, Real.sqrt_sq (by linarith)]
      rw [hs]
      left
      refine Quat.ext ?_ ?_ ?_ ?_ <;> (field_simp; try ring)
    · have hwne : w ≠ 0 := ne_of_lt hw0
      have hs : Real.sqrt
          (1 - (2*y^2 + 2*z^2) + (1 - (2*x^2 + 2*z^2)) + (1 - (2*x^2 + 2*y^2)) + 1) =
          -(2 * w) := by
        rw [key, show (4:ℝ) * w ^ 2 = (-(2*w)) ^ 2 by ring, Real.sqrt_sq (by linarith)]
      rw [hs]
      right
      refine Quat.ext ?_ ?_ ?_ ?_ <;> (field_simp; try ring)
  · -- first diagonal branch: the pivot is x
    obtain ⟨hB1, hB2⟩ := hB
    have hyx : y ^ 2 < x ^ 2 := by nlinarith
    have hzx : z ^ 2 < x ^ 2 := by nlinarith
    have hx2 : 0 < x ^ 2 := lt_of_le_of_lt (sq_nonneg y) hyx
    have hx0 : x ≠ 0 := by
      intro hx
      rw [hx] at hx2
      simp at hx2
    have pivot : 1 + (1 - (2*y^2 + 2*z^2)) - (1 - (2*x^2 + 2*z^2)) - (1 - (2*x^2 + 2*y^2)) =
        4 * x ^ 2 := by ring
    rcases hx0.lt_or_lt with hx | hx
    · have hs : Real.sqrt
          (1 + (1 - (2*y^2 + 2*z^2)) - (1 - (2*x^2 + 2*z^2)) - (1 - (2*x^2 + 2*y^2))) =
          -(2 * x) := by
        rw [pivot, show (4:ℝ) * x ^ 2 = (-(2*x)) ^ 2 by ring, Real.sqrt_sq (by linarith)]
      rw [hs]
      right
      refine Quat.ext ?_ ?_ ?_ ?_ <;> (field_simp; try ring)
    · have hs : Real.sqrt
          (1 + (1 - (2*y^2 + 2*z^2)) - (1 - (2*x^2 + 2*z^2)) - (1 - (2*x^2 + 2*y^2))) =
          2 * x := by
        rw [pivot, show (4:ℝ) * x ^ 2 = (2*x) ^ 2 by ring, Real.sqrt_sq (by linarith)]
      rw [hs]
      left
      refine Quat.ext ?_ ?_ ?_ ?_ <;> (field_simp; try ring)
  · -- second diagonal branch: the pivot is y
    have hzy : z ^ 2 < y ^ 2 := by nlinarith
    have hy2 : 0 < y ^ 2 := lt_of_le_of_lt (sq_nonneg z) hzy
    have hy0 : y ≠ 0 := by
      intro hy
      rw [hy] at hy2
      simp at hy2
    have pivot : 1 + (1 - (2*x^2 + 2*z^2)) - (1 - (2*y^2 + 2*z^2)) - (1 - (2*x^2 + 2*y^2)) =
        4 * y ^ 2 := by ring
    rcases hy0.lt_or_lt with hy | hy
    · have hs : Real.sqrt
          (1 + (1 - (2*x^2 + 2*z^2)) - (1 - (2*y^2 + 2*z^2)) - (1 - (2*x^2 + 2*y^2))) =
          -(2 * y) := by
        rw [pivot, show (4:ℝ) * y ^ 2 = (-(2*y)) ^ 2 by ring, Real.sqrt_sq (by linarith)]
      rw [hs]
      right
      refine Quat.ext ?_ ?_ ?_ ?_ <;> (field_simp; try ring)
    · have hs : Real.sqrt
          (1 + (1 - (2*x^2 + 2*z^2)) - (1 - (2*y^2 + 2*z^2)) - (1 - (2*x^2 + 2*y^2))) =
          2 * y := by
        rw [pivot, show (4:ℝ) * y ^ 2 = (2*y) ^ 2 by ring, Real.sqrt_sq (by linarith)]
      rw [hs]
      left
      refine Quat.ext ?_ ?_ ?_ ?_ <;> (field_simp; try ring)
  · -- third diagonal branch: the pivot is z
    have hzy : y ^ 2 ≤ z ^ 2 := by
      rw [not_lt] at hC
      nlinarith
    have hz0 : z ≠ 0 := by
      intro hz
      have hy : y = 0 := by nlinarith [sq_nonneg y]
      rw [not_and_or] at hB
      have hx : x = 0 := by
        rcases hB with hB | hB <;> (rw [not_lt] at hB; nlinarith [sq_nonneg x])
      rw [not_lt] at hA
      rw [hx, hy, hz] at hA
      norm_num at hA
    have hz2 : 0 < z ^ 2 := by
      rcases hz0.lt_or_lt with hz | hz <;> positivity
    have pivot : 1 + (1 - (2*x^2 + 2*y^2)) - (1 - (2*y^2 + 2*z^2)) - (1 - (2*x^2 + 2*z^2)) =
        4 * z ^ 2 := by ring
    rcases hz0.lt_or_lt with hz | hz
    · have hs : Real.sqrt
          (1 + (1 - (2*x^2 + 2*y^2)) - (1 - (2*y^2 + 2*z^2)) - (1 - (2*x^2 + 2*z^2))) =
          -(2 * z) := by
        rw [pivot, show (4:ℝ) * z ^ 2 = (-(2*z)) ^ 2 by ring, Real.sqrt_sq (by linarith)]
      rw [hs]
      right
      refine Quat.ext ?_ ?_ ?_ ?_ <;> (field_simp; try ring)
    · have hs : Real.sqrt
          (1 + (1 - (2*x^2 + 2*y^2)) - (1 - (2*y^2 + 2*z^2)) - (1 - (2*x^2 + 2*z^2))) =
          2 * z := by
        rw [pivot, show (4:ℝ) * z ^ 2 = (2*z) ^ 2 by ring, Real.sqrt_sq (by linarith)]
      rw [hs]
      left
      refine Quat.ext ?_ ?_ ?_ ?_ <;> (field_simp; try ring)

/-- A single mirror pass on a unit quaternion produces the sagittal
conjugate up to global sign. -/
lemma mirrorQ_cases (q : Quat) (h : quatNorm2 q = 1) :
    mirrorQuaternionAcrossX q = conjQuatX q ∨
    mirrorQuaternionAcrossX q = negQuat (conjQuatX q) := by
  have hc : quatNorm2 (conjQuatX q) = 1 := by rw [quatNorm2_conjQuatX, h]
  unfold mirrorQuaternionAcrossX
  rw [mirror_conj]
  obtain ⟨x, y, z, w⟩ := q
  have h' : x ^ 2 + (-y) ^ 2 + (-z) ^ 2 + w ^ 2 = 1 := by
    simpa [quatNorm2, conjQuatX] using hc
  rcases extract_mrq x (-y) (-z) w h' with he | he
  · rw [show (conjQuatX ⟨x, y, z, w⟩ : Quat) = ⟨x, -y, -z, w⟩ from rfl, he]
    left
    rw [normalizeQuat_unit _ (by simpa [quatNorm2, conjQuatX] using hc)]
  · rw [show (conjQuatX ⟨x, y, z, w⟩ : Quat) = ⟨x, -y, -z, w⟩ from rfl, he]
    right
    have hn : quatNorm2 (negQuat ⟨x, -y, -z, w⟩) = 1 := by
      rw [quatNorm2_negQuat]
      simpa [quatNorm2, conjQuatX] using hc
    rw [normalizeQuat_unit _ hn]

/-- Mirroring ignores the global sign of its argument, because opposite
quaternions have the same rotation matrix. -/
lemma mirrorQ_negQuat (q : Quat) :
    mirrorQuaternionAcrossX (negQuat q) = mirrorQuaternionAcrossX q := by
  unfold mirrorQuaternionAcrossX
  rw [mrq_negQuat]

lemma conjQuatX_conjQuatX (q : Quat) : conjQuatX (conjQuatX q) = q := by
  obtain ⟨x, y, z, w⟩ := q
  simp [conjQuatX]

/-! ### List lemmas for the symmetry engine and the rest pose -/

/-- Updating the first joint with a name updates exactly what `find?`
returns for that name. -/
lemma find?_updateFirstQuat (l : List FJoint) (n : String) (q : Quat) (j0 : FJoint)
    (hf : l.find? (fun x => x.name = n) = some j0) :
    (updateFirstQuat l n q).find? (fun x => x.name = n) = some { j0 with quat := q } := by
  induction l with
  | nil => simp [List.find?] at hf
  | cons a l ih =>
    by_cases ha : a.name = n
    · rw [List.find?_cons_of_pos _ (by simpa using ha)] at hf
      rw [updateFirstQuat, if_pos ha]
      rw [List.find?_cons_of_pos _ (by simpa using ha)]
      rw [Option.some_inj] at hf
      rw [hf]
    · rw [List.find?_cons_of_neg _ (by simpa using ha)] at hf
      rw [updateFirstQuat, if_neg ha]
      rw [List.find?_cons_of_neg _ (by simpa using ha)]
      exact ih hf

/-- In a list of joints with pairwise-distinct names, `find?` by the name
of a member returns that member. -/
lemma find?_name_of_nodup (l : List FJoint)
    (hnd : (l.map (fun j => j.name)).Nodup) (j : FJoint) (hj : j ∈ l) :
    l.find? (fun x => x.name = j.name) = some j := by
  induction l with
  | nil => cases hj
  | cons a l ih =>
    rw [List.map_cons, List.nodup_cons] at hnd
    rcases List.mem_cons.mp hj with rfl | hj'
    · rw [List.find?_cons_of_pos _ (by simp)]
    · have hne : a.name ≠ j.name := by
        intro he
        exact hnd.1 (he ▸ List.mem_map_of_mem (fun x => x.name) hj')
      rw [List.find?_cons_of_neg _ (by simpa using hne)]
      exact ih hnd.2 hj'

/-- `find?` by first component over a name-keyed image commutes with the
underlying name search. -/
lemma find?_map_fst (l : List FJoint) (g : FJoint → RestRec) (n : String) :
    (l.map (fun j => (j.name, g j))).find? (fun e => e.1 = n) =
      (l.find? (fun j => j.name = n)).map (fun j => (j.name, g j)) := by
  induction l with
  | nil => rfl
  | cons a l ih =>
    rw [List.map_cons]
    by_cases ha : a.name = n
    · rw [List.find?_cons_of_pos _ (by simpa using ha),
        List.find?_cons_of_pos _ (by simpa using ha)]
      rfl
    · rw [List.find?_cons_of_neg _ (by simpa using ha),
        List.find?_cons_of_neg _ (by simpa using ha), ih]

/-- Looking up a member joint's name in the snapshot yields its captured
record, provided joint names are pairwise distinct. -/
lemma restLookup_snapshot (w : FWorld)
    (hnd : (w.joints.map (fun j => j.name)).Nodup) (j : FJoint) (hj : j ∈ w.joints) :
    restLookup (snapshotRestPose w) j.name =
      some ⟨j.pos, j.quat, j.scale, j.firstMesh.map w.meshScales⟩ := by
  unfold restLookup snapshotRestPose
  rw [← List.map_reverse, find?_map_fst]
  have hnd' : (w.joints.reverse.map (fun j => j.name)).Nodup := by
    rw [List.map_reverse, List.nodup_reverse]
    exact hnd
  have hj' : j ∈ w.joints.reverse := List.mem_reverse.mpr hj
  rw [find?_name_of_nodup w.joints.reverse hnd' j hj']
  rfl

/-- `mapIdx` with a skeleton-preserving function preserves the skeletons. -/
lemma map_skel_mapIdx (l : List FJoint) (f : ℕ → FJoint → FJoint)
    (hf : ∀ k j, skelOf (f k j) = skelOf j) :
    (l.mapIdx f).map skelOf = l.map skelOf := by
  induction l generalizing f with
  | nil => simp
  | cons a l ih =>
    rw [List.mapIdx_cons, List.map_cons, List.map_cons, hf 0 a,
      ih (fun i => f (i + 1)) (fun k j => hf (k + 1) j)]

/-- A single pose edit preserves every joint's skeleton. -/
lemma applyEdit_skel (w : FWorld) (e : PoseEdit) :
    (applyEdit w e).joints.map skelOf = w.joints.map skelOf := by
  cases e with
  | setPos i v =>
    exact map_skel_mapIdx _ _ (fun k j => by split <;> rfl)
  | setQuat i q =>
    exact map_skel_mapIdx _ _ (fun k j => by split <;> rfl)
  | setScale i v =>
    exact map_skel_mapIdx _ _ (fun k j => by split <;> rfl)
  | setMeshScale m v => rfl

/-- A sequence of pose edits preserves every joint's skeleton. -/
lemma applyEdits_skel (es : List PoseEdit) (w : FWorld) :
    (applyEdits es w).joints.map skelOf = w.joints.map skelOf := by
  induction es generalizing w with
  | nil => rfl
  | cons e es ih =>
    rw [show applyEdits (e :: es) w = applyEdits es (applyEdit w e) from rfl,
      ih (applyEdit w e), applyEdit_skel]

/-- Projections of a skeleton equality. -/
lemma skelOf_eq_iff (a b : FJoint) :
    skelOf a = skelOf b ↔
      a.name = b.name ∧ a.isJoint = b.isJoint ∧ a.isProp = b.isProp ∧
        a.firstMesh = b.firstMesh := by
  unfold skelOf
  simp

/-- Restoring the edited joints from the original snapshot reproduces the
original joints, given that per-name lookup returns the original fields. -/
lemma restore_joints_of_skel (rest : List (String × RestRec)) :
    ∀ a b : List FJoint,
      b.map skelOf = a.map skelOf →
      (∀ j ∈ a, ∃ r : RestRec, restLookup rest j.name = some r ∧
        r.pos = j.pos ∧ r.quat = j.quat ∧ r.scale = j.scale) →
      b.map (restoreJoint rest) = a := by
  intro a
  induction a with
  | nil =>
    intro b hb _
    rw [List.map_nil, List.map_eq_nil_iff] at hb
    rw [hb, List.map_nil]
  | cons j a ih =>
    intro b hb hr
    cases b with
    | nil => simp at hb
    | cons j' b =>
      rw [List.map_cons, List.map_cons] at hb
      obtain ⟨hhead, htail⟩ := List.cons_eq_cons.mp hb
      obtain ⟨hname, hJ, hP, hM⟩ := (skelOf_eq_iff j' j).mp hhead
      obtain ⟨r, hrl, hrp, hrq, hrs⟩ := hr j (List.mem_cons_self j a)
      rw [List.map_cons, ih b htail (fun x hx => hr x (List.mem_cons_of_mem j hx))]
      congr 1
      simp only [restoreJoint, hname, hrl]
      exact FJoint.ext rfl hJ hP hrp hrq hrs hM

/-- One mesh-restore step can only write a key's original value, for a
joint whose lookup stores original mesh scales. -/
lemma restoreMeshStep_writes (rest : List (String × RestRec)) (orig : ℕ → V3)
    (j : FJoint)
    (hj : ∀ m, j.firstMesh = some m → ∃ r : RestRec,
      restLookup rest j.name = some r ∧ r.meshScale = some (orig m))
    (st : ℕ → V3) (k : ℕ) :
    restoreMeshStep rest st j k = st k ∨ restoreMeshStep rest st j k = orig k := by
  unfold restoreMeshStep
  cases hl : restLookup rest j.name with
  | none => exact Or.inl rfl
  | some r =>
    simp only [hl]
    cases hm : j.firstMesh with
    | none => exact Or.inl rfl
    | some m =>
      obtain ⟨r', hr', hms⟩ := hj m hm
      rw [hl] at hr'
      rw [Option.some_inj] at hr'
      subst hr'
      rw [hms]
      by_cases hk : k = m
      · subst hk
        right
        simp
      · left
        simp [hk]

/-- One mesh-restore step writes the original value at the joint's own
mesh key. -/
lemma restoreMeshStep_own (rest : List (String × RestRec)) (orig : ℕ → V3)
    (j : FJoint) (m : ℕ) (hm : j.firstMesh = some m)
    (hj : ∃ r : RestRec, restLookup rest j.name = some r ∧ r.meshScale = some (orig m))
    (st : ℕ → V3) :
    restoreMeshStep rest st j m = orig m := by
  obtain ⟨r, hr, hms⟩ := hj
  unfold restoreMeshStep
  simp only [hr, hm, hms]
  simp

/-- Folding mesh-restore steps preserves a key already holding its
original value. -/
lemma restoreMesh_fold_preserves (rest : List (String × RestRec)) (orig : ℕ → V3)
    (l : List FJoint)
    (hl : ∀ j ∈ l, ∀ m, j.firstMesh = some m → ∃ r : RestRec,
      restLookup rest j.name = some r ∧ r.meshScale = some (orig m)) :
    ∀ (st : ℕ → V3) (k : ℕ), st k = orig k →
      (l.foldl (restoreMeshStep rest) st) k = orig k := by
  induction l with
  | nil => intro st k hk; exact hk
  | cons j l ih =>
    intro st k hk
    rw [List.foldl_cons]
    refine ih (fun x hx => hl x (List.mem_cons_of_mem j hx)) _ k ?_
    rcases restoreMeshStep_writes rest orig j (hl j (List.mem_cons_self j l)) st k with
      h | h
    · rw [h, hk]
    · exact h

/-- Folding mesh-restore steps over a list containing a joint with mesh
key `m` ends with `m` holding its original value. -/
lemma restoreMesh_fold_own (rest : List (String × RestRec)) (orig : ℕ → V3)
    (l : List FJoint)
    (hl : ∀ j ∈ l, ∀ m, j.firstMesh = some m → ∃ r : RestRec,
      restLookup rest j.name = some r ∧ r.meshScale = some (orig m)) :
    ∀ (st : ℕ → V3) (j : FJoint), j ∈ l → ∀ m, j.firstMesh = some m →
      (l.foldl (restoreMeshStep rest) st) m = orig m := by
  induction l with
  | nil => intro st j hj; cases hj
  | cons a l ih =>
    intro st j hj m hm
    rw [List.foldl_cons]
    rcases List.mem_cons.mp hj with rfl | hj'
    · refine restoreMesh_fold_preserves rest orig l
        (fun x hx => hl x (List.mem_cons_of_mem j hx)) _ m ?_
      exact restoreMeshStep_own rest orig j m hm (hl j (List.mem_cons_self j l) m hm) st
    · exact ih (fun x hx => hl x (List.mem_cons_of_mem a hx)) _ j hj' m hm

/-- Members of a list skeleton-equal to another list correspond to members
with the same skeleton. -/
lemma mem_of_skel_map (a b : List FJoint) (hab : b.map skelOf = a.map skelOf) :
    ∀ j' ∈ b, ∃ j ∈ a, skelOf j' = skelOf j := by
  induction a generalizing b with
  | nil =>
    rw [List.map_nil, List.map_eq_nil_iff] at hab
    subst hab
    intro j' hj'
    cases hj'
  | cons j a ih =>
    cases b with
    | nil => intro j' hj'; cases hj'
    | cons x b =>
      rw [List.map_cons, List.map_cons] at hab
      obtain ⟨hhead, htail⟩ := List.cons_eq_cons.mp hab
      intro j' hj'
      rcases List.mem_cons.mp hj' with rfl | hj''
      · exact ⟨j, List.mem_cons_self j a, hhead⟩
      · obtain ⟨jj, hjj, hsk⟩ := ih b htail j' hj''
        exact ⟨jj, List.mem_cons_of_mem j hjj, hsk⟩

/-! ### Selection resolver lemmas -/

/-- Under the program invariant that every imported-model root is also
prop-flagged, the code's walk agrees with the spec's precedence walk. -/
lemma resolveLoop_eq_spec (hit : HitObj) :
    ∀ (anc : List HitObj) (o : HitObj),
      (o.isImportedRoot = true → o.isProp = true) →
      (∀ p ∈ anc, p.isImportedRoot = true → p.isProp = true) →
      resolveLoop hit o anc = specResolveLoop hit o anc := by
  intro anc
  induction anc with
  | nil =>
    intro o ho _
    cases hir : o.importRoot with
    | some r => simp [resolveLoop, specResolveLoop, hir]
    | none =>
      by_cases hroot : o.isImportedRoot = true
      · have hprop := ho hroot
        simp [resolveLoop, specResolveLoop, hir, hroot, hprop]
      · by_cases hprop : o.isProp = true
        · simp [resolveLoop, specResolveLoop, hir, hroot, hprop]
        · simp [resolveLoop, specResolveLoop, hir, hroot, hprop]
  | cons p ps ih =>
    intro o ho hps
    cases hir : o.importRoot with
    | some r => simp [resolveLoop, specResolveLoop, hir]
    | none =>
      by_cases hpj : p.isJoint = true
      · simp [resolveLoop, specResolveLoop, hir, hpj]
      · by_cases hroot : o.isImportedRoot = true
        · have hprop := ho hroot
          simp [resolveLoop, specResolveLoop, hir, hpj, hroot, hprop]
        · by_cases hprop : o.isProp = true
          · simp [resolveLoop, specResolveLoop, hir, hpj, hroot, hprop]
          · simp only [resolveLoop, specResolveLoop, hir, hpj, hroot, hprop]
            exact ih p (hps p (List.mem_cons_self p ps))
              (fun x hx => hps x (List.mem_cons_of_mem p hx))

/-- Every node the walk returns is a joint, a prop, or the hit itself. -/
lemma resolveLoop_node_shape (hit : HitObj) :
    ∀ (anc : List HitObj) (o : HitObj),
      (o.isImportedRoot = true → o.isProp = true) →
      (∀ p ∈ anc, p.isImportedRoot = true → p.isProp = true) →
      ∀ o', resolveLoop hit o anc = .node o' →
        o'.isJoint = true ∨ o'.isProp = true ∨ o' = hit := by
  intro anc
  induction anc with
  | nil =>
    intro o ho _ o' hres
    cases hir : o.importRoot with
    | some r => simp [resolveLoop, hir] at hres
    | none =>
      by_cases hroot : o.isImportedRoot = true
      · have hprop := ho hroot
        simp [resolveLoop, hir, hroot] at hres
        subst hres
        exact Or.inr (Or.inl hprop)
      · by_cases hprop : o.isProp = true
        · simp [resolveLoop, hir, hroot, hprop] at hres
          subst hres
          exact Or.inr (Or.inl hprop)
        · simp [resolveLoop, hir, hroot, hprop] at hres
          subst hres
          exact Or.inr (Or.inr rfl)
  | cons p ps ih =>
    intro o ho hps o' hres
    cases hir : o.importRoot with
    | some r => simp [resolveLoop, hir] at hres
    | none =>
      by_cases hpj : p.isJoint = true
      · simp [resolveLoop, hir, hpj] at hres
        subst hres
        exact Or.inl hpj
      · by_cases hroot : o.isImportedRoot = true
        · have hprop := ho hroot
          simp [resolveLoop, hir, hpj, hroot] at hres
          subst hres
          exact Or.inr (Or.inl hprop)
        · by_cases hprop : o.isProp = true
          · simp [resolveLoop, hir, hpj, hroot, hprop] at hres
            subst hres
            exact Or.inr (Or.inl hprop)
          · simp only [resolveLoop, hir, hpj, hroot, hprop] at hres
            exact ih p (hps p (List.mem_cons_self p ps))
              (fun x hx => hps x (List.mem_cons_of_mem p hx)) o' hres

/-! ### Codec round-trip helpers -/

mutual
theorem roundtripGroup : ∀ t : GTree, applyGroup t (serializeGroup t) = some t
  | .node r cs => by
    rw [serializeGroup, applyGroup, roundtripChildren cs]

theorem roundtripChildren :
    ∀ ts : List GTree, applyChildren ts (serializeGroupList ts) = some ts
  | [] => by rw [serializeGroupList, applyChildren]
  | c :: cs => by
    rw [serializeGroupList, applyChildren, roundtripGroup c, roundtripChildren cs]
end

end PoseSandbox

namespace PoseSandbox

/-! ### Theorems -/

/-- C1: for every joint name carrying a left/right prefix, the
counterpart-name derivation applied twice returns the original name, and
for every name without such a prefix it returns `null`. -/
theorem counterpart_prefix_swap_involution (s : String) :
    (hasLRStart s → ∃ t, counterpartName s = some t ∧ counterpartName t = some s) ∧
    (¬ hasLRStart s → counterpartName s = none) := by
  obtain ⟨l⟩ := s
  constructor
  · rintro (h | h)
    · have hd : l = 'l' :: '_' :: l.drop 2 := by
        conv_lhs => rw [← List.take_append_drop 2 l]
        rw [show (String.mk l).data = l from rfl] at h
        rw [h]; rfl
      refine ⟨String.mk ('r' :: '_' :: l.drop 2), ?_, ?_⟩
      · unfold counterpartName
        rw [if_pos h]
      · unfold counterpartName
        have h1 : (String.mk ('r' :: '_' :: l.drop 2)).data.take 2 = ['r', '_'] := rfl
        rw [h1]
        rw [if_neg (by simp), if_pos rfl]
        simp only [Option.some.injEq]
        show String.mk ('l' :: '_' :: l.drop 2) = String.mk l
        rw [← hd]
    · have hd : l = 'r' :: '_' :: l.drop 2 := by
        conv_lhs => rw [← List.take_append_drop 2 l]
        rw [show (String.mk l).data = l from rfl] at h
        rw [h]; rfl
      refine ⟨String.mk ('l' :: '_' :: l.drop 2), ?_, ?_⟩
      · unfold counterpartName
        rw [if_neg (by rw [show (String.mk l).data = l from rfl, h]; simp), if_pos h]
      · unfold counterpartName
        have h1 : (String.mk ('l' :: '_' :: l.drop 2)).data.take 2 = ['l', '_'] := rfl
        rw [h1, if_pos rfl]
        simp only [Option.some.injEq]
        show String.mk ('r' :: '_' :: l.drop 2) = String.mk l
        rw [← hd]
  · intro h
    unfold counterpartName
    rw [if_neg (fun hl => h (Or.inl hl)), if_neg (fun hr => h (Or.inr hr))]

/-- Witness for C1 at the concrete names `"l_shoulder"` (prefixed) and
`"spine"` (unprefixed). -/
theorem counterpart_prefix_swap_involution_witness :
    (∃ t, counterpartName "l_shoulder" = some t ∧ counterpartName t = some "l_shoulder") ∧
    counterpartName "spine" = none :=
  ⟨(counterpart_prefix_swap_involution "l_shoulder").1 (by decide),
   (counterpart_prefix_swap_involution "spine").2 (by decide)⟩

/-- C10: `setSnapDeg` leaves the snap-degrees state unchanged when its
argument does not convert to a finite number, sets it to the converted
number otherwise, and returns the resulting state value in both cases. -/
theorem setSnapDeg_finite_guard (st : SnapState) (n : JsNumber) :
    (isFiniteNumber n = false → setSnapDeg st n = (st, st.snapDeg)) ∧
    (∀ q : ℚ, n = .num q → setSnapDeg st n = (⟨q⟩, q)) := by
  cases n <;> simp [setSnapDeg, isFiniteNumber]

/-- Witness for C10: a `NaN` argument (as produced by `Number(undefined)`
or a non-numeric string) keeps `snapDeg = 10` and returns `10`; a finite
argument `25` sets and returns `25`. -/
theorem setSnapDeg_finite_guard_witness :
    setSnapDeg ⟨10⟩ .nan = (⟨10⟩, 10) ∧ setSnapDeg ⟨10⟩ (.num 25) = (⟨25⟩, 25) :=
  ⟨(setSnapDeg_finite_guard ⟨10⟩ .nan).1 rfl,
   (setSnapDeg_finite_guard ⟨10⟩ (.num 25)).2 25 rfl⟩

/-- C2 (counterexample): double mirroring does not return every rotation
quaternion: at `Q = (0, 0, 0, -1)` — a unit quaternion encoding the
identity rotation — the extraction step canonicalizes the sign and
`mirror(mirror(Q)) = (0, 0, 0, 1) ≠ Q`, a difference far outside any
floating tolerance. -/
theorem mirror_involution_counterexample :
    mirrorQuaternionAcrossX (mirrorQuaternionAcrossX ⟨0, 0, 0, -1⟩) = ⟨0, 0, 0, 1⟩ ∧
    (⟨0, 0, 0, 1⟩ : Quat) ≠ (⟨0, 0, 0, -1⟩ : Quat) := by
  constructor
  · rw [mirrorQ_pure_w, mirrorQ_pure_w]
  · intro hq
    have h1 := congrArg Quat.w hq
    norm_num at h1

/-- C2 (amended): for every unit rotation quaternion `Q`, mirroring across
the sagittal plane twice yields `Q` up to global quaternion sign —
`mirror(mirror(Q))` is `Q` or `-Q`, both encoding the original rotation. -/
theorem mirror_involution_up_to_sign (q : Quat) (h : quatNorm2 q = 1) :
    mirrorQuaternionAcrossX (mirrorQuaternionAcrossX q) = q ∨
    mirrorQuaternionAcrossX (mirrorQuaternionAcrossX q) = negQuat q := by
  have hc : quatNorm2 (conjQuatX q) = 1 := by rw [quatNorm2_conjQuatX, h]
  rcases mirrorQ_cases q h with h1 | h1
  · rw [h1]
    rcases mirrorQ_cases (conjQuatX q) hc with h2 | h2
    · left
      rw [h2, conjQuatX_conjQuatX]
    · right
      rw [h2, conjQuatX_conjQuatX]
  · rw [h1, mirrorQ_negQuat]
    rcases mirrorQ_cases (conjQuatX q) hc with h2 | h2
    · left
      rw [h2, conjQuatX_conjQuatX]
    · right
      rw [h2, conjQuatX_conjQuatX]

/-- Witness for the amended C2 at the unit quaternion `(0, 0, 0, 1)`. -/
theorem mirror_involution_up_to_sign_witness :
    quatNorm2 ⟨0, 0, 0, 1⟩ = 1 ∧
    (mirrorQuaternionAcrossX (mirrorQuaternionAcrossX ⟨0, 0, 0, 1⟩) = ⟨0, 0, 0, 1⟩ ∨
      mirrorQuaternionAcrossX (mirrorQuaternionAcrossX ⟨0, 0, 0, 1⟩) =
        negQuat ⟨0, 0, 0, 1⟩) :=
  ⟨by norm_num [quatNorm2],
   mirror_involution_up_to_sign ⟨0, 0, 0, 1⟩ (by norm_num [quatNorm2])⟩

/-- C7: the Transform Target Policy returns no target in orbit mode, for
every possible selection (none, prop, joint, or imported model alike). -/
theorem orbit_mode_no_target (sel : Option Obj) :
    getGizmoTargetForSelection Mode.orbit sel = none := by
  cases sel with
  | none => rfl
  | some s => simp [getGizmoTargetForSelection]

/-- C3: on a rotation handle-edit notification with symmetry enabled and a
joint selected whose name has a counterpart present in the rig, the
counterpart joint's rotation is set absolutely to the mirrored rotation
(normalized conversion of `M·R·M`); with symmetry disabled the
notification changes nothing, so the counterpart keeps its rotation. -/
theorem rotation_mirrors_to_counterpart (w : FWorld) (j : FJoint) (cn : String)
    (other : FJoint) (hJ : j.isJoint = true)
    (hcn : counterpartName j.name = some cn)
    (hfind : getJointByName w cn = some other) :
    onGizmoObjectChange true Mode.rotate (some j) w =
      { w with joints := updateFirstQuat w.joints cn (mirrorQuaternionAcrossX j.quat) } ∧
    (onGizmoObjectChange true Mode.rotate (some j) w).joints.find?
        (fun x => x.name = cn) =
      some { other with quat := mirrorQuaternionAcrossX j.quat } ∧
    ∀ (sym : Bool) (mode : Mode) (sel : Option FJoint) (w' : FWorld),
      sym = false → onGizmoObjectChange sym mode sel w' = w' := by
  have hmain : onGizmoObjectChange true Mode.rotate (some j) w =
      { w with joints := updateFirstQuat w.joints cn (mirrorQuaternionAcrossX j.quat) } := by
    simp [onGizmoObjectChange, mirrorRotationToCounterpartIfPossible, hJ, hcn, hfind]
  refine ⟨hmain, ?_, ?_⟩
  · rw [hmain]
    exact find?_updateFirstQuat w.joints cn _ other hfind
  · intro sym mode sel w' hsym
    subst hsym
    simp [onGizmoObjectChange]

/-- Witness for C3: the shoulder scenario with the left shoulder selected
at rotation `Q`; symmetry on writes `mirror(Q)` onto `r_shoulder`. -/
theorem rotation_mirrors_to_counterpart_witness :
    counterpartName "l_shoulder" = some "r_shoulder" ∧
    getJointByName shoulderWorld "r_shoulder" = some rShoulderF ∧
    (onGizmoObjectChange true Mode.rotate (some lShoulderF) shoulderWorld).joints.find?
        (fun x => x.name = "r_shoulder") =
      some { rShoulderF with quat := mirrorQuaternionAcrossX lShoulderF.quat } :=
  ⟨by decide, rfl,
   (rotation_mirrors_to_counterpart shoulderWorld lShoulderF "r_shoulder" rShoulderF
      rfl (by decide) rfl).2.1⟩

/-- C9: with symmetry enabled, a scale notification on a joint selection
copies the edited part's scale vector verbatim onto the counterpart's
part, and is a silent no-op when the counterpart name, the counterpart
joint, or either side's visible part is missing; a disabled toggle changes
nothing. -/
theorem scale_mirrors_to_counterpart (w : FWorld) (j : FJoint)
    (hJ : j.isJoint = true) (hP : j.isProp = false) :
    (∀ (cn : String) (other : FJoint) (ms mo : ℕ),
      counterpartName j.name = some cn →
      getJointByName w cn = some other →
      j.firstMesh = some ms →
      other.firstMesh = some mo →
      onGizmoObjectChange true Mode.scale (some j) w =
        { w with meshScales := fun k =>
            if k = mo then w.meshScales ms else w.meshScales k }) ∧
    (counterpartName j.name = none →
      onGizmoObjectChange true Mode.scale (some j) w = w) ∧
    (∀ cn, counterpartName j.name = some cn → getJointByName w cn = none →
      onGizmoObjectChange true Mode.scale (some j) w = w) ∧
    (∀ cn other, counterpartName j.name = some cn → getJointByName w cn = some other →
      j.firstMesh = none ∨ other.firstMesh = none →
      onGizmoObjectChange true Mode.scale (some j) w = w) ∧
    (∀ (sym : Bool) (sel : Option FJoint) (w' : FWorld), sym = false →
      onGizmoObjectChange sym Mode.scale sel w' = w') := by
  refine ⟨?_, ?_, ?_, ?_, ?_⟩
  · intro cn other ms mo hcn hfind hms hmo
    simp [onGizmoObjectChange, mirrorScaleToCounterpartIfPossible, fGizmoTarget,
      hJ, hP, hcn, hfind, hms, hmo]
  · intro hcn
    simp [onGizmoObjectChange, mirrorScaleToCounterpartIfPossible, hJ, hcn]
  · intro cn hcn hfind
    simp [onGizmoObjectChange, mirrorScaleToCounterpartIfPossible, hJ, hcn, hfind]
  · intro cn other hcn hfind hnone
    rcases hnone with hn | hn
    · simp [onGizmoObjectChange, mirrorScaleToCounterpartIfPossible, fGizmoTarget,
        hJ, hP, hcn, hfind, hn]
    · cases hjm : j.firstMesh with
      | none =>
        simp [onGizmoObjectChange, mirrorScaleToCounterpartIfPossible, fGizmoTarget,
          hJ, hP, hcn, hfind, hjm, hn]
      | some ms =>
        simp [onGizmoObjectChange, mirrorScaleToCounterpartIfPossible, fGizmoTarget,
          hJ, hP, hcn, hfind, hjm, hn]
  · intro sym sel w' hsym
    subst hsym
    simp [onGizmoObjectChange]

/-- Witness for C9: scaling the left shoulder part to `(2, 3, 4)` with
symmetry on copies that scale onto the right shoulder part (mesh `1`). -/
theorem scale_mirrors_to_counterpart_witness :
    counterpartName "l_shoulder" = some "r_shoulder" ∧
    getJointByName scaleWorld "r_shoulder" = some rShoulderF ∧
    onGizmoObjectChange true Mode.scale (some lShoulderF) scaleWorld =
      { scaleWorld with meshScales := fun k =>
          if k = 1 then scaleWorld.meshScales 0 else scaleWorld.meshScales k } :=
  ⟨by decide, rfl,
   (scale_mirrors_to_counterpart scaleWorld lShoulderF rfl rfl).1 "r_shoulder" rShoulderF
      0 1 (by decide) rfl rfl rfl⟩

/-- C4: after `snapshot()` of the rest pose and an arbitrary sequence of
pose edits, `restore()` gives every joint back its snapshotted position,
rotation and scale, and that joint's visible part its snapshotted scale,
for every joint present at snapshot time (joint names of the built rig
are pairwise distinct). -/
theorem snapshot_restore_roundtrip (w : FWorld) (edits : List PoseEdit)
    (hnd : (w.joints.map (fun j => j.name)).Nodup) :
    (resetAllJointTransforms (snapshotRestPose w) (applyEdits edits w)).joints =
      w.joints ∧
    ∀ j ∈ w.joints, ∀ m : ℕ, j.firstMesh = some m →
      (resetAllJointTransforms (snapshotRestPose w) (applyEdits edits w)).meshScales m =
        w.meshScales m := by
  have hskel : (applyEdits edits w).joints.map skelOf = w.joints.map skelOf :=
    applyEdits_skel edits w
  have hlook : ∀ j ∈ w.joints, ∃ r : RestRec,
      restLookup (snapshotRestPose w) j.name = some r ∧
      r.pos = j.pos ∧ r.quat = j.quat ∧ r.scale = j.scale := by
    intro j hj
    exact ⟨_, restLookup_snapshot w hnd j hj, rfl, rfl, rfl⟩
  constructor
  · exact restore_joints_of_skel (snapshotRestPose w) w.joints
      (applyEdits edits w).joints hskel hlook
  · intro j hj m hm
    have hcorr : ∀ j' ∈ (applyEdits edits w).joints, ∀ m', j'.firstMesh = some m' →
        ∃ r : RestRec, restLookup (snapshotRestPose w) j'.name = some r ∧
          r.meshScale = some (w.meshScales m') := by
      intro j' hj' m' hm'
      obtain ⟨j0, hj0, hsk⟩ :=
        mem_of_skel_map w.joints (applyEdits edits w).joints hskel j' hj'
      obtain ⟨hn, hJ0, hP0, hM0⟩ := (skelOf_eq_iff j' j0).mp hsk
      refine ⟨⟨j0.pos, j0.quat, j0.scale, j0.firstMesh.map w.meshScales⟩, ?_, ?_⟩
      · rw [hn]
        exact restLookup_snapshot w hnd j0 hj0
      · rw [← hM0, hm']
        rfl
    obtain ⟨j', hj', hsk⟩ :=
      mem_of_skel_map (applyEdits edits w).joints w.joints hskel.symm j hj
    obtain ⟨hn, hJ0, hP0, hM0⟩ := (skelOf_eq_iff j j').mp hsk
    have hm' : j'.firstMesh = some m := by rw [← hM0, hm]
    show (applyEdits edits w).joints.foldl (restoreMeshStep (snapshotRestPose w))
        (applyEdits edits w).meshScales m = w.meshScales m
    exact restoreMesh_fold_own (snapshotRestPose w) w.meshScales _ hcorr _ j' hj' m hm'

/-- Witness for C4: the two-shoulder world, a rotation edit on the left
shoulder plus a part-scale edit, then restore: the joints equal the
snapshot again. -/
theorem snapshot_restore_roundtrip_witness :
    ((shoulderWorld.joints.map (fun j => j.name)).Nodup) ∧
    (resetAllJointTransforms (snapshotRestPose shoulderWorld)
        (applyEdits [PoseEdit.setQuat 0 ⟨1, 0, 0, 0⟩, PoseEdit.setMeshScale 0 ⟨5, 5, 5⟩]
          shoulderWorld)).joints = shoulderWorld.joints :=
  ⟨by decide,
   (snapshot_restore_roundtrip shoulderWorld
      [PoseEdit.setQuat 0 ⟨1, 0, 0, 0⟩, PoseEdit.setMeshScale 0 ⟨5, 5, 5⟩]
      (by decide)).1⟩

/-- C5: applying a serialized pose document back onto the scene it was
captured from succeeds and reproduces the identical tree — every group's
rotation (joints and props alike) is exactly what it was before the
round trip. -/
theorem serialize_apply_roundtrip (t : GTree) :
    applyGroup t (serializeGroup t) = some t :=
  roundtripGroup t

/-- C8: the selection resolver walks parent links and picks the first
qualifying ancestor with the spec's precedence (imported-model root
back-reference, else parent joint, else prop, else the hit verbatim), and
never returns a bare visual part except through the verbatim fallback —
under the program invariant that imported-model roots carry the prop
marker, as `markImportedPickable` guarantees. -/
theorem selection_resolver_precedence (hit : HitObj) (ancestors : List HitObj)
    (hwf : ∀ o ∈ hit :: ancestors, o.isImportedRoot = true → o.isProp = true) :
    resolveSelectionFromHit hit ancestors = specResolveSelection hit ancestors ∧
    ∀ o', resolveSelectionFromHit hit ancestors = .node o' →
      o'.isJoint = true ∨ o'.isProp = true ∨ o' = hit := by
  have hh := hwf hit (List.mem_cons_self hit ancestors)
  have ha : ∀ p ∈ ancestors, p.isImportedRoot = true → p.isProp = true :=
    fun p hp => hwf p (List.mem_cons_of_mem hit hp)
  constructor
  · unfold resolveSelectionFromHit specResolveSelection
    cases hir : hit.importRoot with
    | some r => cases ancestors <;> simp [specResolveLoop, hir]
    | none =>
      simp only [hir]
      exact resolveLoop_eq_spec hit ancestors hit hh ha
  · intro o' hres
    unfold resolveSelectionFromHit at hres
    cases hir : hit.importRoot with
    | some r =>
      rw [hir] at hres
      cases hres
    | none =>
      rw [hir] at hres
      exact resolveLoop_node_shape hit ancestors hit hh ha o' hres

/-- Witness for C8: a pickable arm mesh whose immediate parent is the
`l_shoulder` joint group resolves to that joint, matching the spec walk. -/
theorem selection_resolver_precedence_witness :
    (∀ o ∈ hitMeshF :: [shoulderHitF], o.isImportedRoot = true → o.isProp = true) ∧
    resolveSelectionFromHit hitMeshF [shoulderHitF] =
      specResolveSelection hitMeshF [shoulderHitF] ∧
    resolveSelectionFromHit hitMeshF [shoulderHitF] = HitRes.node shoulderHitF :=
  ⟨by decide,
   (selection_resolver_precedence hitMeshF [shoulderHitF] (by decide)).1,
   by decide⟩

/-- C6: in scale mode, for every joint of the built rig the transform
handle attaches to the joint's first pickable mesh — a mesh node, never
the joint group itself — so a scale edit writes the part's scale while the
joint node's own scale (and every other joint field) stays untouched, as a
part-scale edit leaves all joint records unchanged. -/
theorem scale_mode_targets_part (j : Obj) (hj : j ∈ rigJoints) :
    ((findFirstPickableMesh j).isSome = true ∧
      getGizmoTargetForSelection Mode.scale (some j) =
        some (GTarget.node ((findFirstPickableMesh j).getD j)) ∧
      ((findFirstPickableMesh j).getD j).isMesh = true ∧
      j.isMesh = false) ∧
    ∀ (w : FWorld) (mid : ℕ) (v : V3),
      (applyEdit w (PoseEdit.setMeshScale mid v)).joints = w.joints := by
  constructor
  · simp only [rigJoints, List.mem_cons, List.not_mem_nil, or_false] at hj
    rcases hj with rfl | rfl | rfl | rfl | rfl | rfl | rfl | rfl | rfl | rfl | rfl |
      rfl | rfl | rfl | rfl | rfl <;>
      refine ⟨?_, ?_, ?_, rfl⟩ <;>
      simp [getGizmoTargetForSelection, findFirstPickableMesh, findFirstPickableMeshList,
        charRootJ, hipsJ, chestJ, neckJ, lShoulderJ, rShoulderJ, lElbowJ, rElbowJ,
        lWristJ, rWristJ, lHipJ, rHipJ, lKneeJ, rKneeJ, lAnkleJ, rAnkleJ,
        jointGroup, boxMesh, torsoMesh, headMesh, lUpperarmMesh, rUpperarmMesh,
        lForearmMesh, rForearmMesh, lHandMesh, rHandMesh, lThighMesh, rThighMesh,
        lShinMesh, rShinMesh, lFootMesh, rFootMesh,
        Obj.isMesh, Obj.pickable, Obj.isProp, Obj.isJoint]
  · intro w mid v
    rfl

/-- Witness for C6 at the `l_shoulder` joint of the rig: its target is the
upper-arm mesh. -/
theorem scale_mode_targets_part_witness :
    lShoulderJ ∈ rigJoints ∧
    (((findFirstPickableMesh lShoulderJ).isSome = true ∧
      getGizmoTargetForSelection Mode.scale (some lShoulderJ) =
        some (GTarget.node ((findFirstPickableMesh lShoulderJ).getD lShoulderJ)) ∧
      ((findFirstPickableMesh lShoulderJ).getD lShoulderJ).isMesh = true ∧
      lShoulderJ.isMesh = false) ∧
    ∀ (w : FWorld) (mid : ℕ) (v : V3),
      (applyEdit w (PoseEdit.setMeshScale mid v)).joints = w.joints) :=
  ⟨by simp [rigJoints],
   scale_mode_targets_part lShoulderJ (by simp [rigJoints])⟩

end PoseSandbox
